/-
Verification of the Scheduler_App repository against its specification.

The repository contains several variants of a hospital PBX shift-scheduling
engine.  This file gives a shallow embedding of the parts of the code the
claims are about:

* `SchedEngine` — `scheduling_engine.py` (`SchedulingEngine.generate_schedule`
  and its helpers).  Dates are modelled as natural numbers (days since
  1970-01-01, a Thursday, so `weekday d = (d + 3) % 7` with Monday = 0 as in
  Python's `date.weekday()`); times of day and durations are in minutes, and
  instants are `Int` minutes (`1440 * date + minuteOfDay`).
* `AppFixed` — `app_fixed.py` (`SchedulingEngine.generate_schedule_with_pto_reshuffling`,
  `_assign_shifts_with_fair_distribution` and the helpers it calls, the
  `/api/trades/<id>/approve` handler) together with the trade-creation
  validation of `deepseek_python_20250929_62207b.py`.
* `Sample` — `src/Requirements/sample_scehduler.py` (`can_work`,
  `choose_person` and the per-slot fill step of the build loop).

Python's `list.sort` is a stable ascending sort by the given key; it is
modelled by Mathlib's `List.insertionSort` with the relation
"key a ≤ key b", which is also a stable ascending sort, hence extensionally
identical on every input.
-/
import Mathlib

/-- Python's `date.weekday()`: Monday = 0 … Sunday = 6, for a date given as a
number of days since 1970-01-01 (a Thursday). -/
def weekday (d : Nat) : Nat := (d + 3) % 7

/-- Python's `date.strftime('%a')` abbreviated weekday name. -/
def dayName (d : Nat) : String :=
  match weekday d with
  | 0 => "Mon" | 1 => "Tue" | 2 => "Wed" | 3 => "Thu"
  | 4 => "Fri" | 5 => "Sat" | _ => "Sun"

deriving instance DecidableEq for Except

namespace SchedEngine

/-- A row of the `employees` table as read by `scheduling_engine.py`
(schema in `database.py`).  `cannot_work_days` is the decoded JSON list. -/
structure EmployeeRow where
  id : Nat
  name : String
  shift_type : String
  hours_per_week : Nat
  special_schedule : Option String
  max_consecutive_days : Nat
  min_rest_hours : Nat
  cannot_work_days : List String
  deriving Repr, DecidableEq

/-- One `(role, start, end, hours)` tuple of the shift tables in
`SchedulingEngine.__init__`; times and the duration are in minutes. -/
structure ShiftTemplate where
  role : String
  startMin : Nat
  endMin : Nat
  durMin : Nat
  deriving Repr, DecidableEq

/-- `self.day_shifts['weekday']`. -/
def day_shifts_weekday : List ShiftTemplate :=
  [⟨"D1", 420, 1140, 720⟩, ⟨"D2", 420, 1140, 720⟩, ⟨"D3", 420, 1140, 720⟩,
   ⟨"PATTY", 480, 960, 480⟩, ⟨"EARLY1", 420, 480, 60⟩, ⟨"LATE3", 960, 1140, 180⟩]

/-- `self.day_shifts['weekend']`. -/
def day_shifts_weekend : List ShiftTemplate :=
  [⟨"D1", 420, 1140, 720⟩, ⟨"D2", 420, 1140, 720⟩,
   ⟨"D3", 420, 1140, 720⟩, ⟨"D4", 420, 1140, 720⟩]

/-- `self.night_shifts` (10.5 h = 630 min). -/
def night_shifts : List ShiftTemplate :=
  [⟨"N1", 1140, 330, 630⟩, ⟨"N2", 1290, 480, 630⟩, ⟨"N3", 1140, 420, 720⟩]

/-- The three `defaultdict` tracking variables of `generate_schedule`:
`employee_hours` (minutes, default 0), `last_shift_end` (instant in minutes,
default `None`) and `consecutive_days` (default 0), keyed by employee id. -/
structure TrackState where
  employeeHours : Nat → Nat
  lastShiftEnd : Nat → Option Int
  consecutiveDays : Nat → Nat

/-- Initial tracking state (empty defaultdicts). -/
def initState : TrackState :=
  { employeeHours := fun _ => 0, lastShiftEnd := fun _ => none,
    consecutiveDays := fun _ => 0 }

/-- The body of the `for emp in employees` filter of
`SchedulingEngine.get_available_employees`: each `continue` is a `false`
branch.  `get_employee_weekly_hours` is the source's placeholder returning 0. -/
def is_available (st : TrackState) (date : Nat) (shift_type : String)
    (emp : EmployeeRow) : Bool :=
  if emp.shift_type == "DAY" && shift_type == "Night" then false
  else if emp.shift_type == "NIGHT" && shift_type == "Day" then false
  else if emp.cannot_work_days.contains (dayName date) then false
  else if (match st.lastShiftEnd emp.id with
    | some le => decide (((1440 * date : Int) - le) < 60 * (emp.min_rest_hours : Int))
    | none => false) then false
  else if st.consecutiveDays emp.id ≥ emp.max_consecutive_days then false
  else if emp.special_schedule == some "LEAD" && shift_type == "Night" then false
  else if emp.special_schedule == some "LEGAL_CAP" && 0 ≥ emp.hours_per_week then false
  else true

/-- `SchedulingEngine.get_available_employees`. -/
def get_available_employees (employees : List EmployeeRow) (date : Nat)
    (shift_type : String) (st : TrackState) : List EmployeeRow :=
  employees.filter (is_available st date shift_type)

/-- The sort key of `assign_shifts`:
`(employee_hours[emp['id']], -emp['hours_per_week'])`. -/
def assignLe (hours : Nat → Nat) (a b : EmployeeRow) : Prop :=
  hours a.id < hours b.id ∨
    (hours a.id = hours b.id ∧ (b.hours_per_week : Int) ≤ (a.hours_per_week : Int))

instance (hours : Nat → Nat) : DecidableRel (assignLe hours) := fun _ _ =>
  inferInstanceAs (Decidable (_ ∨ _))

/-- An assignment dict as produced inside `assign_shifts` (before the outer
loop adds `is_overtime`). -/
structure PartialRec where
  employee_id : Nat
  employee_name : String
  shift_type : String
  role : String
  startMin : Nat
  endMin : Nat
  durMin : Nat
  deriving Repr, DecidableEq

/-- `SchedulingEngine.assign_shifts`: sort the available employees by
`(hours, -hours_per_week)` (Python's stable sort) and give shift `i` to the
`i`-th employee, skipping shifts with no employee left. -/
def assign_shifts (shifts : List ShiftTemplate) (available : List EmployeeRow)
    (hours : Nat → Nat) (shift_type : String) : List PartialRec :=
  (shifts.zip (available.insertionSort (assignLe hours))).map fun (sh, emp) =>
    { employee_id := emp.id, employee_name := emp.name, shift_type := shift_type,
      role := sh.role, startMin := sh.startMin, endMin := sh.endMin,
      durMin := sh.durMin }

/-- A row of `schedule_data` as appended by `generate_schedule`. -/
structure AssignmentRec where
  employee_id : Nat
  employee_name : String
  date : Nat
  shift_type : String
  role : String
  startMin : Nat
  endMin : Nat
  durMin : Nat
  is_overtime : Bool
  deriving Repr, DecidableEq

/-- Pointwise update of a tracking function at one key. -/
def updFn {α : Type} (f : Nat → α) (k : Nat) (v : α) : Nat → α :=
  fun i => if i = k then v else f i

/-- The per-assignment body of the `for assignment in all_assignments` loop of
`generate_schedule`: append the record (`is_overtime` is computed from the
hours *before* adding this shift, `> 40` hours = `> 2400` minutes), then add
the hours, set `last_shift_end = datetime.combine(date, end_time)` — note: the
same `date`, with no overnight wrap — and increment `consecutive_days`.
`update_consecutive_days` is a `pass` in the source and adds nothing. -/
def saveOne (date : Nat) (acc : List AssignmentRec × TrackState)
    (a : PartialRec) : List AssignmentRec × TrackState :=
  let (out, st) := acc
  (out ++ [{ employee_id := a.employee_id, employee_name := a.employee_name,
             date := date, shift_type := a.shift_type, role := a.role,
             startMin := a.startMin, endMin := a.endMin, durMin := a.durMin,
             is_overtime := decide (st.employeeHours a.employee_id > 2400) }],
   { employeeHours := updFn st.employeeHours a.employee_id
       (st.employeeHours a.employee_id + a.durMin),
     lastShiftEnd := updFn st.lastShiftEnd a.employee_id
       (some ((1440 * date : Int) + a.endMin)),
     consecutiveDays := updFn st.consecutiveDays a.employee_id
       (st.consecutiveDays a.employee_id + 1) })

/-- `SchedulingEngine.clear_non_working_days`: reset `consecutive_days` to 0
for everyone without an assignment today (keys absent from the defaultdict
already read as 0, so the pointwise form is equivalent). -/
def clear_non_working_days (st : TrackState) (all : List PartialRec) : TrackState :=
  { st with consecutiveDays := fun i =>
      if all.any (fun a => a.employee_id == i) then st.consecutiveDays i else 0 }

/-- The body of the inner `for day in range(7)` loop of `generate_schedule`
for one date: day availability and assignment, then night availability and
assignment (both against the *same* pre-date tracking state), then the
save/update loop over `day_assignments + night_assignments`, then the
consecutive-day clear. -/
def processDate (employees : List EmployeeRow) (st : TrackState) (date : Nat) :
    List AssignmentRec × TrackState :=
  let is_weekend := weekday date ≥ 5
  let dayShifts := if is_weekend then day_shifts_weekend else day_shifts_weekday
  let availD := get_available_employees employees date "Day" st
  let dayA := assign_shifts dayShifts availD st.employeeHours "Day"
  let availN := get_available_employees employees date "Night" st
  let nightA := assign_shifts night_shifts availN st.employeeHours "Night"
  let all := dayA ++ nightA
  let (recs, st') := all.foldl (saveOne date) ([], st)
  (recs, clear_non_working_days st' all)

/-- The dates visited by the nested loops of `generate_schedule`:
`for week in range(weeks): for day in range(7): date = current_date + timedelta(days=day)`.
`current_date` is initialised to `start_date` and never advanced, so every
week iterates the same seven dates. -/
def datesVisited (start weeks : Nat) : List Nat :=
  (List.range weeks).flatMap fun _ => (List.range 7).map fun day => start + day

/-- `SchedulingEngine.generate_schedule` (the roster is passed in place of
the `employees` DB query). -/
def generate_schedule (employees : List EmployeeRow) (start weeks : Nat) :
    List AssignmentRec :=
  ((datesVisited start weeks).foldl
    (fun (acc : List AssignmentRec × TrackState) date =>
      let (recs, st') := processDate employees acc.2 date
      (acc.1 ++ recs, st'))
    ([], initState)).1

/-! Formalisation of the rest-gap, consecutive-day and horizon claims over the
engine's output. -/

/-- Wall-clock start instant of an assignment, in minutes. -/
def trueStart (a : AssignmentRec) : Int := 1440 * a.date + a.startMin

/-- Wall-clock end instant with midnight-wrap awareness: an end time at or
before the start time falls on the following calendar day. -/
def trueEnd (a : AssignmentRec) : Int :=
  1440 * a.date + (if a.endMin ≤ a.startMin then (a.endMin : Int) + 1440 else (a.endMin : Int))

/-- The assignments of employee `e`, ordered by start instant. -/
def byStart (out : List AssignmentRec) (e : Nat) : List AssignmentRec :=
  (out.filter (fun a => a.employee_id == e)).insertionSort
    (fun a b => trueStart a ≤ trueStart b)

/-- Checks that along a list of assignments ordered by start instant, each
start is at least `m` hours after the wrap-aware end of its predecessor. -/
def restChain (m : Nat) : List AssignmentRec → Bool
  | a :: b :: rest =>
      decide (trueEnd a + 60 * (m : Int) ≤ trueStart b) && restChain m (b :: rest)
  | _ => true

/-- Claim C1 as stated: in the run of `generate_schedule`, every pair of one
employee's time-consecutive assignments is separated by at least that
employee's `min_rest_hours`, with wrap-aware instants. -/
abbrev restClaimHolds (employees : List EmployeeRow) (start weeks : Nat) : Prop :=
  ∀ emp ∈ employees,
    restChain emp.min_rest_hours
      (byStart (generate_schedule employees start weeks) emp.id) = true

/-- The distinct calendar dates inside the horizon on which employee `e`
works, in increasing order. -/
def workedDates (out : List AssignmentRec) (e start weeks : Nat) : List Nat :=
  ((List.range (7 * weeks)).filter fun i =>
    out.any fun a => a.employee_id == e && a.date == start + i).map (start + ·)

/-- Helper for `maxConsecRun`: `prev` is the previous date, `cur` the length
of the current run of consecutive dates, `best` the longest run so far. -/
def maxConsecRunGo : List Nat → Nat → Nat → Nat → Nat
  | [], _, _, best => best
  | d :: rest, prev, cur, best =>
    let cur2 := if d = prev + 1 then cur + 1 else 1
    maxConsecRunGo rest d cur2 (max best cur2)

/-- Length of the longest run of consecutive calendar dates in an increasing
list of distinct dates (the claim's consecutive-work-day streak: a gap of two
or more days between worked dates breaks the run). -/
def maxConsecRun : List Nat → Nat
  | [] => 0
  | d :: rest => maxConsecRunGo rest d 1 1

/-- Claim C2 as stated: no employee's consecutive-work-day streak in the
generated schedule ever exceeds their `max_consecutive_days`. -/
abbrev consecClaimHolds (employees : List EmployeeRow) (start weeks : Nat) : Prop :=
  ∀ emp ∈ employees,
    maxConsecRun
      (workedDates (generate_schedule employees start weeks) emp.id start weeks)
      ≤ emp.max_consecutive_days

/-- Claim C7 as stated: a run over `weeks` weeks iterates over exactly
`weeks*7` distinct consecutive calendar dates from the start date, visiting
each exactly once in increasing order. -/
abbrev datesClaimHolds (start weeks : Nat) : Prop :=
  datesVisited start weeks = (List.range (weeks * 7)).map (start + ·)

/-- A one-employee roster: active, works both periods, default rest
(10 h) and consecutive-day (5) limits, 40 h weekly target. -/
def rosterC1 : List EmployeeRow := [⟨1, "Alice", "BOTH", 40, none, 5, 10, []⟩]

/-- A one-employee roster of a night-only operator whose
`max_consecutive_days` is 6. -/
def rosterC2 : List EmployeeRow := [⟨1, "Nadia", "NIGHT", 40, none, 6, 10, []⟩]

/-- Claim C3's compatibility condition: the assignment names an employee of
the roster whose eligibility mode does not conflict with the slot's period. -/
def EligibleFor (employees : List EmployeeRow) (r : AssignmentRec) : Prop :=
  ∃ emp ∈ employees, emp.id = r.employee_id ∧ emp.name = r.employee_name ∧
    (r.shift_type = "Day" → emp.shift_type ≠ "NIGHT") ∧
    (r.shift_type = "Night" → emp.shift_type ≠ "DAY")

instance (employees : List EmployeeRow) (r : AssignmentRec) :
    Decidable (EligibleFor employees r) :=
  inferInstanceAs (Decidable (∃ _ ∈ _, _))

/-- The stored assignments the endpoint deletes before regenerating: those
dated inside `[start, start + weeks*7)`. -/
def inRange (start weeks d : Nat) : Bool :=
  decide (start ≤ d) && decide (d < start + weeks * 7)

/-- The clear-then-insert regeneration step of the `/api/schedule/generate`
endpoints: delete every stored assignment dated in the requested range, then
append the engine's output for that range. -/
def regenerate (employees : List EmployeeRow) (start weeks : Nat)
    (store : List AssignmentRec) : List AssignmentRec :=
  store.filter (fun a => !(inRange start weeks a.date)) ++
    generate_schedule employees start weeks

end SchedEngine

namespace AppFixed

/-- An `Employee` model row of `app_fixed.py` (the fields the engine reads).
`cannot_work_days` is the decoded JSON list. -/
structure EmployeeF where
  id : Nat
  name : String
  nights_only : Bool
  max_hours_per_week : Nat
  cannot_work_days : List String
  max_consecutive_days : Nat
  min_rest_hours : Nat
  deriving Repr, DecidableEq

/-- A `TimeOffRequest` model row (dates are inclusive; `shift_type` is
`DAY`/`NIGHT`/`BOTH`; `status` is `PENDING`/`APPROVED`/`DENIED`). -/
structure TimeOffReq where
  employee_id : Nat
  start_date : Nat
  end_date : Nat
  shift_type : String
  status : String
  deriving Repr, DecidableEq

/-- A `Schedule` model row (the fields read by the engine and trade code). -/
structure ScheduleRow where
  id : Nat
  employee_id : Nat
  schedule_date : Nat
  shift_startMin : Nat
  shift_endMin : Nat
  shift_type : String
  role : String
  deriving Repr, DecidableEq

/-- `self.day_shifts_weekday` of `app_fixed.SchedulingEngine`. -/
def day_shifts_weekday : List SchedEngine.ShiftTemplate :=
  [⟨"D1", 420, 1140, 720⟩, ⟨"D2", 420, 1140, 720⟩, ⟨"D3", 420, 1140, 720⟩,
   ⟨"PATTY", 480, 960, 480⟩, ⟨"EARLY1", 420, 480, 60⟩, ⟨"LATE3", 960, 1140, 180⟩]

/-- `self.day_shifts_weekend`. -/
def day_shifts_weekend : List SchedEngine.ShiftTemplate :=
  [⟨"D1", 420, 1140, 720⟩, ⟨"D2", 420, 1140, 720⟩,
   ⟨"D3", 420, 1140, 720⟩, ⟨"D4", 420, 1140, 720⟩]

/-- `self.night_shifts`. -/
def night_shifts : List SchedEngine.ShiftTemplate :=
  [⟨"N1", 1140, 330, 630⟩, ⟨"N2", 1290, 480, 630⟩, ⟨"N3", 1140, 420, 720⟩]

/-- The `TimeOffRequest` query of `generate_schedule_with_pto_reshuffling`:
`status == 'APPROVED'`, `start_date <= start + days - 1`, `end_date >= start`. -/
def approvedInHorizon (start days : Nat) (t : TimeOffReq) : Bool :=
  t.status == "APPROVED" && t.start_date ≤ start + days - 1 && start ≤ t.end_date

/-- `pto_lookup[d][sc]`: ids of employees with a queried request of scope
`sc` whose inclusive date range contains `d` (built in query order). -/
def ptoIds (timeOffs : List TimeOffReq) (start days d : Nat) (sc : String) :
    List Nat :=
  (((timeOffs.filter (approvedInHorizon start days)).filter
    (fun t => t.shift_type == sc && t.start_date ≤ d && d ≤ t.end_date)).map
    TimeOffReq.employee_id)

/-- `_can_work_day_shift`. -/
def can_work_day_shift (e : EmployeeF) : Bool := !e.nights_only

/-- `_can_work_night_shift` — `True` for everyone. -/
def can_work_night_shift (_ : EmployeeF) : Bool := true

/-- `day_pto_employees` for a date. -/
def dayPto (timeOffs : List TimeOffReq) (start days d : Nat) : List Nat :=
  ptoIds timeOffs start days d "DAY" ++ ptoIds timeOffs start days d "BOTH"

/-- `night_pto_employees` for a date. -/
def nightPto (timeOffs : List TimeOffReq) (start days d : Nat) : List Nat :=
  ptoIds timeOffs start days d "NIGHT" ++ ptoIds timeOffs start days d "BOTH"

/-- `available_day_employees` including the coverage-gap fallback: the PTO
filter is re-applied to the extras, the day/night-eligibility filter is not
(`min_day_coverage` is the constant 4 in the source). -/
def availableDayEmployees (employees : List EmployeeF)
    (timeOffs : List TimeOffReq) (start days d : Nat) : List EmployeeF :=
  let pto := dayPto timeOffs start days d
  let avail := employees.filter (fun e => !(pto.contains e.id) && can_work_day_shift e)
  if avail.length < 4 then
    let extra := employees.filter (fun e => !(pto.contains e.id) && !(avail.contains e))
    avail ++ extra.take (4 - avail.length)
  else avail

/-- `available_night_employees` including the coverage-gap fallback
(`min_night_coverage = 3`). -/
def availableNightEmployees (employees : List EmployeeF)
    (timeOffs : List TimeOffReq) (start days d : Nat) : List EmployeeF :=
  let pto := nightPto timeOffs start days d
  let avail := employees.filter (fun e => !(pto.contains e.id) && can_work_night_shift e)
  if avail.length < 3 then
    let extra := employees.filter (fun e => !(pto.contains e.id) && !(avail.contains e))
    avail ++ extra.take (3 - avail.length)
  else avail

/-- `_calculate_shift_hours`, in minutes (an end at or before the start rolls
over to the next day). -/
def calculate_shift_minutes (s e : Nat) : Nat :=
  if e ≤ s then e + 1440 - s else e - s

/-- `date - timedelta(days=date.weekday())` (Monday of the date's week). -/
def weekStartMon (d : Nat) : Nat := d - weekday d

/-- `_get_weekly_hours`, in minutes, over the stored `Schedule` rows. -/
def get_weekly_minutes (db : List ScheduleRow) (eid d : Nat) : Nat :=
  ((db.filter (fun s => s.employee_id == eid &&
      weekStartMon d ≤ s.schedule_date && s.schedule_date ≤ weekStartMon d + 6)).map
    (fun s => calculate_shift_minutes s.shift_startMin s.shift_endMin)).sum

/-- `_can_work_on_day`. -/
def can_work_on_day (e : EmployeeF) (d : Nat) : Bool :=
  !(e.cannot_work_days.contains (dayName d))

/-- Does the stored schedule have a shift for this employee on this date? -/
def hasShift (db : List ScheduleRow) (eid d : Nat) : Bool :=
  db.any (fun s => s.employee_id == eid && s.schedule_date == d)

/-- The look-back loop of `_would_exceed_consecutive_days`: length of the run
of consecutive scheduled days ending the day before `d`, looking back at most
`fuel` (= 10) days. -/
def backStreak (db : List ScheduleRow) (eid d : Nat) : Nat → Nat
  | 0 => 0
  | fuel + 1 => if hasShift db eid (d - 1) then 1 + backStreak db eid (d - 1) fuel else 0

/-- `Employee.query.get`. -/
def getEmployee (employees : List EmployeeF) (eid : Nat) : Option EmployeeF :=
  employees.find? (fun e => e.id == eid)

/-- `_would_exceed_consecutive_days` (the engine only calls it with ids of
roster employees, so the missing-employee case is unreachable). -/
def would_exceed_consecutive_days (employees : List EmployeeF)
    (db : List ScheduleRow) (eid d : Nat) : Bool :=
  match getEmployee employees eid with
  | some e => backStreak db eid d 10 ≥ e.max_consecutive_days
  | none => false

/-- The `order_by(date desc, shift_end desc).first()` query of
`_has_sufficient_rest`: the stored shift of the employee strictly before `d`
with the largest `(schedule_date, shift_end)`. -/
def lastShiftBefore (db : List ScheduleRow) (eid d : Nat) : Option ScheduleRow :=
  (db.filter (fun s => s.employee_id == eid && s.schedule_date < d)).foldl
    (fun best s =>
      match best with
      | none => some s
      | some b =>
          if b.schedule_date < s.schedule_date ||
             (b.schedule_date == s.schedule_date && b.shift_endMin < s.shift_endMin)
          then some s else some b)
    none

/-- `_has_sufficient_rest`: the wrap adjustment (+1 day on the end instant)
is applied only when the previous shift was exactly yesterday and overnight. -/
def has_sufficient_rest (employees : List EmployeeF) (db : List ScheduleRow)
    (eid d sMin : Nat) : Bool :=
  match lastShiftBefore db eid d with
  | none => true
  | some last =>
    let lastEnd : Int :=
      if last.schedule_date == d - 1 && last.shift_endMin < last.shift_startMin
      then 1440 * (last.schedule_date : Int) + last.shift_endMin + 1440
      else 1440 * (last.schedule_date : Int) + last.shift_endMin
    match getEmployee employees eid with
    | some e =>
        decide ((1440 * (d : Int) + sMin) - lastEnd ≥ 60 * (e.min_rest_hours : Int))
    | none => true

/-- A Python `NameError` raised by a failed name lookup. -/
inductive PyError where
  | nameError (n : String)
  | indexError
  deriving Repr, DecidableEq

/-- An assignment dict produced by `_assign_shifts_with_fair_distribution`. -/
structure AssignDictF where
  employee_id : Nat
  schedule_date : Nat
  shift_startMin : Nat
  shift_endMin : Nat
  shift_type : String
  role : String
  is_overtime : Bool
  is_coverage : Bool
  deriving Repr, DecidableEq

/-- The free name the loop body of `_assign_shifts_with_fair_distribution`
reads for the given shift type (line 293 of `app_fixed.py`):
`available_day_employees` for `'DAY'`, `available_night_employees` otherwise. -/
def leakedName (stype : String) : String :=
  if stype == "DAY" then "available_day_employees" else "available_night_employees"

/-- The `for i, (role, start_time, end_time, hours) in enumerate(shifts)` loop
of `_assign_shifts_with_fair_distribution`.  `binding` is the Python name
resolution for the two free names read in the body: they are neither locals
of the method nor module-level names of `app_fixed.py`, so in the real
program `binding` maps both to `none` and the first executed iteration with
`i < len(available_employees)` raises a `NameError`. -/
def fairLoop (binding : String → Option (List EmployeeF))
    (employees : List EmployeeF) (db : List ScheduleRow) (date : Nat)
    (stype : String) (availLen : Nat) :
    List SchedEngine.ShiftTemplate → Nat → Except PyError (List AssignDictF)
  | [], _ => .ok []
  | sh :: rest, i =>
    if i < availLen then
      match binding (leakedName stype) with
      | none => .error (.nameError (leakedName stype))
      | some lst =>
        match lst[i]? with
        | none => .error .indexError
        | some employee =>
          if can_work_on_day employee date then
            if !(would_exceed_consecutive_days employees db employee.id date) then
              if has_sufficient_rest employees db employee.id date sh.startMin then
                let weekly := get_weekly_minutes db employee.id date
                let a : AssignDictF :=
                  { employee_id := employee.id, schedule_date := date,
                    shift_startMin := sh.startMin, shift_endMin := sh.endMin,
                    shift_type := stype, role := sh.role,
                    is_overtime :=
                      decide (weekly + sh.durMin > 60 * employee.max_hours_per_week),
                    is_coverage := false }
                (fairLoop binding employees db date stype availLen rest (i + 1)).map
                  (a :: ·)
              else fairLoop binding employees db date stype availLen rest (i + 1)
            else fairLoop binding employees db date stype availLen rest (i + 1)
          else fairLoop binding employees db date stype availLen rest (i + 1)
    else fairLoop binding employees db date stype availLen rest (i + 1)

/-- `_assign_shifts_with_fair_distribution`.  The two in-place sorts by
weekly hours only rearrange `pool` and `available_employees`; the loop body
never reads either sorted list (it reads the two unbound names instead), so
only the length of `available_employees` matters. -/
def assign_shifts_with_fair_distribution (binding : String → Option (List EmployeeF))
    (employees : List EmployeeF) (db : List ScheduleRow)
    (shifts : List SchedEngine.ShiftTemplate) (available : List EmployeeF)
    (date : Nat) (stype : String) : Except PyError (List AssignDictF) :=
  fairLoop binding employees db date stype available.length shifts 0

/-- The per-date body of `generate_schedule_with_pto_reshuffling`. -/
def processDateF (binding : String → Option (List EmployeeF))
    (employees : List EmployeeF) (timeOffs : List TimeOffReq)
    (db : List ScheduleRow) (start days d : Nat) :
    Except PyError (List AssignDictF) := do
  let is_weekend := weekday d ≥ 5
  let dayShifts := if is_weekend then day_shifts_weekend else day_shifts_weekday
  let availD := availableDayEmployees employees timeOffs start days d
  let availN := availableNightEmployees employees timeOffs start days d
  let dayA ← assign_shifts_with_fair_distribution binding employees db dayShifts availD d "DAY"
  let nightA ← assign_shifts_with_fair_distribution binding employees db night_shifts availN d "NIGHT"
  return dayA ++ nightA

/-- The `for day_offset in range(days)` loop, over a list of offsets. -/
def genDays (binding : String → Option (List EmployeeF))
    (employees : List EmployeeF) (timeOffs : List TimeOffReq)
    (db : List ScheduleRow) (start days : Nat) :
    List Nat → Except PyError (List AssignDictF)
  | [] => .ok []
  | o :: rest => do
      let recs ← processDateF binding employees timeOffs db start days (start + o)
      let more ← genDays binding employees timeOffs db start days rest
      return recs ++ more

/-- `generate_schedule_with_pto_reshuffling` (an uncaught exception is
re-raised by the method, modelled as the `.error` case). -/
def generate_schedule_with_pto_reshuffling
    (binding : String → Option (List EmployeeF)) (employees : List EmployeeF)
    (timeOffs : List TimeOffReq) (db : List ScheduleRow) (start days : Nat) :
    Except PyError (List AssignDictF) :=
  genDays binding employees timeOffs db start days (List.range days)

/-- The name resolution of the actual program: `_assign_shifts_with_fair_distribution`
assigns neither `available_day_employees` nor `available_night_employees` in
its own scope, `app_fixed.py` has no module-level binding for either (its
module names are the imports plus `logger`, `app`, `db`, the model classes,
`SchedulingEngine`, the route handlers, `_db_init_done` and `create_tables`),
and Python functions cannot read another function's locals — so every lookup
of the two names fails. -/
def noScopeBinding : String → Option (List EmployeeF) := fun _ => none

/-- Claim C6's notion of a slot being recorded in the output at all (filled
or explicitly unfilled): some record of the run carries the slot's date and
role. -/
def slotRecorded (out : List AssignDictF) (d : Nat) (role : String) : Prop :=
  ∃ a ∈ out, a.schedule_date = d ∧ a.role = role

instance (out : List AssignDictF) (d : Nat) (role : String) :
    Decidable (slotRecorded out d role) :=
  inferInstanceAs (Decidable (∃ _ ∈ _, _))

/-- A `ShiftTrade` model row. -/
structure TradeRow where
  id : Nat
  requesting_employee_id : Nat
  target_employee_id : Nat
  original_schedule_id : Nat
  trade_schedule_id : Nat
  status : String
  deriving Repr, DecidableEq

/-- The persistent state touched by the trade endpoints. -/
structure TradeState where
  schedules : List ScheduleRow
  trades : List TradeRow
  deriving Repr, DecidableEq

/-- HTTP-level rejections of the trade endpoints: 404 from `get_or_404`,
400 with a reason message, 500 after an uncaught exception (the session is
rolled back, so the state is unchanged in every error case). -/
inductive ApiError where
  | notFound
  | badRequest (msg : String)
  | serverError
  deriving Repr, DecidableEq

/-- `Schedule.query.get` over the stored rows. -/
def findSchedule (schedules : List ScheduleRow) (sid : Nat) : Option ScheduleRow :=
  schedules.find? (fun s => s.id == sid)

/-- The `/api/trades/<trade_id>/approve` handler of `app_fixed.py`: look the
trade up (404 if absent), reject non-pending trades, then swap the
`employee_id` fields of the two referenced schedules and mark the trade
approved, committing both updates together.  If a referenced schedule row no
longer exists the relationship resolves to `None` and the attribute access
raises, which the handler turns into a 500 with a rollback. -/
def approve_trade (st : TradeState) (tid : Nat) : Except ApiError TradeState :=
  match st.trades.find? (fun t => t.id == tid) with
  | none => .error .notFound
  | some trade =>
    if trade.status != "PENDING" then .error (.badRequest "Trade is not pending")
    else
      match findSchedule st.schedules trade.original_schedule_id,
            findSchedule st.schedules trade.trade_schedule_id with
      | some orig, some tr =>
          .ok { schedules := st.schedules.map (fun s =>
                  if s.id == trade.original_schedule_id then
                    { s with employee_id := tr.employee_id }
                  else if s.id == trade.trade_schedule_id then
                    { s with employee_id := orig.employee_id }
                  else s),
                trades := st.trades.map (fun t =>
                  if t.id == tid then { t with status := "APPROVED" } else t) }
      | _, _ => .error .serverError

/-- The validation chain of the `POST /api/trades` handler in
`deepseek_python_20250929_62207b.py`: both schedules must exist, belong to
the claimed owners, and lie in the future; only then is a `PENDING` trade row
added.  `now` is today's date, `newId` the fresh primary key. -/
def api_trades_post (st : TradeState) (now requesting target origId tradeId newId : Nat) :
    Except ApiError TradeState :=
  match findSchedule st.schedules origId with
  | none => .error (.badRequest "Original schedule not found")
  | some o =>
    match findSchedule st.schedules tradeId with
    | none => .error (.badRequest "Trade schedule not found")
    | some t =>
      if o.employee_id != requesting then
        .error (.badRequest "Original schedule does not belong to requesting employee")
      else if t.employee_id != target then
        .error (.badRequest "Trade schedule does not belong to target employee")
      else if o.schedule_date < now then
        .error (.badRequest "Cannot trade shifts that have already occurred")
      else if t.schedule_date < now then
        .error (.badRequest "Cannot trade shifts that have already occurred")
      else
        .ok { st with trades :=
          st.trades ++ [⟨newId, requesting, target, origId, tradeId, "PENDING"⟩] }

/-- A one-employee nights-only roster used for concrete runs. -/
def c6emps : List EmployeeF := [⟨1, "Nina", true, 40, [], 5, 10⟩]

/-- A single approved whole-horizon absence of scope `BOTH` for that
employee. -/
def c6tos : List TimeOffReq := [⟨1, 0, 6, "BOTH", "APPROVED"⟩]

/-- A generic day-capable employee and an approved absence, for concrete
instantiations. -/
def c4emps : List EmployeeF := [⟨1, "Ann", false, 40, [], 5, 10⟩]

/-- One approved `BOTH` absence covering the first week. -/
def c4tos : List TimeOffReq := [⟨1, 0, 6, "BOTH", "APPROVED"⟩]

/-- Two schedules owned by employees 10 and 20, and a pending trade whose
`requesting_employee_id` (99) does not match the owner of its original
schedule (10). -/
def tradeStateC9 : TradeState :=
  { schedules := [⟨1, 10, 5, 420, 1140, "DAY", "D1"⟩,
                  ⟨2, 20, 6, 420, 1140, "DAY", "D1"⟩],
    trades := [⟨1, 99, 20, 1, 2, "PENDING"⟩] }

/-- What `approve_trade` turns `tradeStateC9` into: both employee fields
swapped and the trade approved. -/
def tradeStateC9Swapped : TradeState :=
  { schedules := [⟨1, 20, 5, 420, 1140, "DAY", "D1"⟩,
                  ⟨2, 10, 6, 420, 1140, "DAY", "D1"⟩],
    trades := [⟨1, 99, 20, 1, 2, "APPROVED"⟩] }

/-- A well-formed pending trade state (owners match), for witnesses. -/
def tradeStateOk : TradeState :=
  { schedules := [⟨1, 10, 5, 420, 1140, "DAY", "D1"⟩,
                  ⟨2, 20, 6, 420, 1140, "DAY", "D1"⟩],
    trades := [⟨1, 10, 20, 1, 2, "PENDING"⟩] }

end AppFixed

namespace Sample

/-- `LEAD`. -/
def LEAD : String := "Patty Golden"

/-- `PEOPLE`, in roster order. -/
def PEOPLE : List String :=
  [LEAD, "Nicole Dempster", "Vicki Theler", "Mayra Bradley", "Lisa Dixon",
   "Shala Johnson", "Chloe Gray", "Tash Jaramillo", "NewHire A", "NewHire B",
   "NewHire C"]

/-- `BASE_TARGET`, in minutes (40 h default; Patty 60 h, Nicole 30 h,
Vicki 20 h). -/
def BASE_TARGET (p : String) : Nat :=
  if p == "Patty Golden" then 3600
  else if p == "Nicole Dempster" then 1800
  else if p == "Vicki Theler" then 1200
  else 2400

/-- `NIGHTS_ONLY`. -/
def NIGHTS_ONLY : List String := ["Nicole Dempster"]

/-- `DAYS_ONLY`. -/
def DAYS_ONLY : List String := [LEAD]

/-- `CANNOT_WORK_DOW` as a lookup (Mayra cannot work Fridays). -/
def CANNOT_WORK_DOW (p : String) : List String :=
  if p == "Mayra Bradley" then ["Fri"] else []

/-- `week_start` (Sunday as week start). -/
def week_start (d : Nat) : Nat :=
  if weekday d == 6 then d else d - (weekday d + 1)

/-- `hours_between`, in minutes (an end at or before the start rolls over to
the next day). -/
def hours_between_minutes (s e : Nat) : Nat :=
  if e ≤ s then e + 1440 - s else e - s

/-- `can_work`.  `last_end_dt` maps a person to the wall-clock end instant of
their last assigned shift (minutes); `worked_days_seq` to their current run
of worked dates.  The rest rule compares the slot's start instant with the
last end; the consecutive rule only rejects when the previous worked day is
exactly yesterday and the run has already reached `MAX_CONSECUTIVE_DAYS`
(= 5); `MIN_REST_HOURS` = 10.  (The source also receives the slot's end time
and computes `end_dt` from it, but no check reads it, so the parameter is
dropped here.) -/
def can_work (p : String) (date : Nat) (period : String) (s : Nat)
    (last_end_dt : String → Option Int) (worked_days_seq : String → List Nat) :
    Bool :=
  if NIGHTS_ONLY.contains p && period != "Night" then false
  else if DAYS_ONLY.contains p && period != "Day" then false
  else if (CANNOT_WORK_DOW p).contains (dayName date) then false
  else if (match last_end_dt p with
    | some le => decide ((1440 * (date : Int) + s) - le < 60 * 10)
    | none => false) then false
  else
    match (worked_days_seq p).getLast? with
    | some last_day =>
        if (date : Int) - (last_day : Int) = 1 then
          decide ((worked_days_seq p).length < 5)
        else true
    | none => true

/-- A `(wh < base, ot, wh, p)` tuple appended to `candidates` in
`choose_person`; `ot`/`wh` in minutes (`Nat` subtraction is the source's
`max(0.0, wh - base)`). -/
structure Cand where
  under : Bool
  ot : Nat
  wh : Nat
  person : String
  deriving Repr, DecidableEq

/-- The candidate tuple of a person, given the weekly ledger. -/
def mkCand (weekly : Nat → String → Nat) (wk : Nat) (p : String) : Cand :=
  { under := decide (weekly wk p < BASE_TARGET p),
    ot := weekly wk p - BASE_TARGET p, wh := weekly wk p, person := p }

/-- The sort key `(not t[0], t[1], t[2])` of `choose_person`, as a `≤`
relation (`False < True` for the negated under-target flag). -/
def candLe (a b : Cand) : Prop :=
  (if a.under then 0 else 1) < (if b.under then 0 else 1) ∨
    ((if a.under then 0 else 1) = (if b.under then 0 else 1) ∧
      (a.ot < b.ot ∨ (a.ot = b.ot ∧ a.wh ≤ b.wh)))

instance : DecidableRel candLe := fun _ _ =>
  inferInstanceAs (Decidable (_ ∨ _))

/-- The eligible people of a slot, in `PEOPLE` (roster) order: everyone but
the lead who passes `can_work`. -/
def eligiblePeople (date : Nat) (period : String) (s : Nat)
    (last_end_dt : String → Option Int) (worked_days_seq : String → List Nat) :
    List String :=
  PEOPLE.filter (fun p => p != LEAD && can_work p date period s last_end_dt worked_days_seq)

/-- `choose_person`: build the candidate tuples in roster order, sort them
ascending by `(not under, ot, wh)` with Python's stable sort, and return the
people.  (The slot duration `hrs` is computed in the source but never used in
the ranking.) -/
def choose_person (weekly : Nat → String → Nat)
    (last_end_dt : String → Option Int) (worked_days_seq : String → List Nat)
    (date : Nat) (period : String) (s : Nat) : List String :=
  let wk := week_start date
  (((eligiblePeople date period s last_end_dt worked_days_seq).map
      (mkCand weekly wk)).insertionSort candLe).map Cand.person

/-- The per-slot fill step of the build loop
(`picks = choose_person(...)`, `person = picks[0] if picks else "UNFILLED"`). -/
def fill_general_slot (weekly : Nat → String → Nat)
    (last_end_dt : String → Option Int) (worked_days_seq : String → List Nat)
    (date : Nat) (period : String) (s : Nat) : String :=
  (choose_person weekly last_end_dt worked_days_seq date period s).headD "UNFILLED"

/-- The code's ranking key of a person (negated under-target flag, overtime
so far, hours so far), for stating order properties of `choose_person`. -/
def codeKey (weekly : Nat → String → Nat) (wk : Nat) (p : String) :
    Nat × Nat × Nat :=
  (if weekly wk p < BASE_TARGET p then 0 else 1,
   weekly wk p - BASE_TARGET p, weekly wk p)

/-- Lexicographic `≤` on triples of naturals. -/
def keyLe3 (a b : Nat × Nat × Nat) : Prop :=
  a.1 < b.1 ∨ (a.1 = b.1 ∧ (a.2.1 < b.2.1 ∨ (a.2.1 = b.2.1 ∧ a.2.2 ≤ b.2.2)))

instance : DecidableRel keyLe3 := fun _ _ =>
  inferInstanceAs (Decidable (_ ∨ _))

/-- The ranking tuple claim C5 attributes to the ranker:
`(0 if at-or-under target else 1, max(0, ledger + slotMinutes − weeklyCap),
ledger, name)` — with the sample scheduler's base target standing in for the
weekly cap, it being the only per-person weekly figure in that source. -/
def specClaimKey (weekly : Nat → String → Nat) (wk slotMin : Nat) (p : String) :
    Nat × Nat × Nat × String :=
  (if weekly wk p ≤ BASE_TARGET p then 0 else 1,
   weekly wk p + slotMin - BASE_TARGET p, weekly wk p, p)

/-- Lexicographic comparison of character lists by code point. -/
def charListLe : List Char → List Char → Bool
  | [], _ => true
  | _ :: _, [] => false
  | c :: cs, d :: ds =>
      if c.toNat < d.toNat then true
      else if d.toNat < c.toNat then false
      else charListLe cs ds

/-- Lexicographic name order (the claim's deterministic final tie-break). -/
def strLe (a b : String) : Bool := charListLe a.data b.data

/-- Lexicographic `≤` on the claimed ranking tuple, name last. -/
def specKeyLe (a b : Nat × Nat × Nat × String) : Prop :=
  a.1 < b.1 ∨ (a.1 = b.1 ∧ (a.2.1 < b.2.1 ∨ (a.2.1 = b.2.1 ∧
    (a.2.2.1 < b.2.2.1 ∨ (a.2.2.1 = b.2.2.1 ∧ strLe a.2.2.2 b.2.2.2 = true)))))

instance : DecidableRel specKeyLe := fun _ _ =>
  inferInstanceAs (Decidable (_ ∨ _))

/-- The ordering claim C5 asserts: candidates sorted ascending by
`specClaimKey`. -/
def specClaimRank (weekly : Nat → String → Nat) (wk slotMin : Nat)
    (candidates : List String) : List String :=
  candidates.insertionSort
    (fun a b => specKeyLe (specClaimKey weekly wk slotMin a) (specClaimKey weekly wk slotMin b))

/-- The all-zero ledger and empty tracking state at the start of a build. -/
def zeroWeekly : Nat → String → Nat := fun _ _ => 0

/-- No last shift end yet. -/
def noLastEnd : String → Option Int := fun _ => none

/-- No worked days yet. -/
def noWorked : String → List Nat := fun _ => []

/-- A ledger in which only Tash has hours so far (600 minutes). -/
def weeklyC5 : Nat → String → Nat :=
  fun _ p => if p == "Tash Jaramillo" then 600 else 0

/-- `IsTotal` for the `choose_person` key order. -/
instance : IsTotal Cand candLe :=
  ⟨by
    intro a b
    unfold candLe
    generalize (if a.under then (0 : Nat) else 1) = x
    generalize (if b.under then (0 : Nat) else 1) = y
    omega⟩

/-- `IsTrans` for the `choose_person` key order. -/
instance : IsTrans Cand candLe :=
  ⟨by
    intro a b c
    unfold candLe
    generalize (if a.under then (0 : Nat) else 1) = x
    generalize (if b.under then (0 : Nat) else 1) = y
    generalize (if c.under then (0 : Nat) else 1) = z
    omega⟩

end Sample

namespace SchedEngine

/-- C1: the rest rule is violated by a concrete run of
`scheduling_engine.generate_schedule`.  With a single both-periods employee
and a one-week horizon starting Thursday 1970-01-01, the engine assigns the
employee both D1 (07:00–19:00) and N1 (19:00–05:30) on day 0 — zero rest
between two time-consecutive assignments — and D1 again at 07:00 on day 1,
only 1.5 h after the overnight shift's wrap-aware end, although the
employee's `min_rest_hours` is 10. -/
theorem c1_rest_rule_violated_by_engine_run :
    (byStart (generate_schedule rosterC1 0 1) 1).take 2 =
      [⟨1, "Alice", 0, "Day", "D1", 420, 1140, 720, false⟩,
       ⟨1, "Alice", 0, "Night", "N1", 1140, 330, 630, false⟩] ∧
    ¬ restClaimHolds rosterC1 0 1 := by
  decide

set_option maxRecDepth 100000 in
/-- C2: the consecutive-day cap is violated by a concrete run.  With a single
night-only employee whose `max_consecutive_days` is 6 and a two-week horizon,
`generate_schedule` re-iterates the same seven dates (it never advances
`current_date` between weeks) and ends up scheduling the employee on seven
consecutive calendar days. -/
theorem c2_consecutive_cap_violated_by_engine_run :
    maxConsecRun (workedDates (generate_schedule rosterC2 0 2) 1 0 2) = 7 ∧
    (rosterC2.map EmployeeRow.max_consecutive_days) = [6] ∧
    ¬ consecClaimHolds rosterC2 0 2 := by
  decide

/-- C7: a two-week run visits the first week's seven dates twice instead of
fourteen distinct consecutive dates, because `generate_schedule` never
advances `current_date` from one week to the next. -/
theorem c7_horizon_dates_repeat :
    datesVisited 0 2 = [0, 1, 2, 3, 4, 5, 6, 0, 1, 2, 3, 4, 5, 6] ∧
    ¬ datesClaimHolds 0 2 := by
  decide

/-! Day/night eligibility is respected by every assignment the engine emits
(claim C3): the availability filter removes `NIGHT` employees from day pools
and `DAY` employees from night pools, and `assign_shifts` only draws from the
filtered pool. -/

/-- An available employee's `shift_type` never conflicts with the pool's
period. -/
theorem is_available_shift_type {st : TrackState} {date : Nat} {ty : String}
    {emp : EmployeeRow} (h : is_available st date ty emp = true) :
    (ty = "Day" → emp.shift_type ≠ "NIGHT") ∧
    (ty = "Night" → emp.shift_type ≠ "DAY") := by
  constructor
  · rintro rfl hn
    unfold is_available at h
    rw [hn] at h
    simp at h
  · rintro rfl hn
    unfold is_available at h
    rw [hn] at h
    simp at h

/-- Everything `assign_shifts` emits names an employee of the given pool and
carries the period it was called with. -/
theorem mem_assign_shifts {shifts : List ShiftTemplate}
    {available : List EmployeeRow} {hours : Nat → Nat} {ty : String}
    {p : PartialRec} (hp : p ∈ assign_shifts shifts available hours ty) :
    ∃ emp ∈ available, p.employee_id = emp.id ∧ p.employee_name = emp.name ∧
      p.shift_type = ty := by
  unfold assign_shifts at hp
  rcases List.mem_map.1 hp with ⟨⟨sh, emp⟩, hmem, rfl⟩
  exact ⟨emp, (List.mem_insertionSort _).1 (List.of_mem_zip hmem).2, rfl, rfl, rfl⟩

/-- Records collected by the save/update loop all come from the pending
assignment dicts of the day being processed. -/
theorem mem_foldl_saveOne (date : Nat) (as : List PartialRec) :
    ∀ (out : List AssignmentRec) (st : TrackState) (r : AssignmentRec),
      r ∈ (as.foldl (saveOne date) (out, st)).1 →
      r ∈ out ∨ ∃ p ∈ as, r.employee_id = p.employee_id ∧
        r.employee_name = p.employee_name ∧ r.shift_type = p.shift_type ∧
        r.date = date := by
  induction as with
  | nil => exact fun out st r h => .inl h
  | cons a as ih =>
      intro out st r h
      rw [List.foldl_cons] at h
      simp only [saveOne] at h
      rcases ih _ _ r h with h2 | ⟨p, hp, hs⟩
      · rcases List.mem_append.1 h2 with h3 | h3
        · exact .inl h3
        · rw [List.mem_singleton] at h3
          subst h3
          exact .inr ⟨a, List.mem_cons_self _ _, rfl, rfl, rfl, rfl⟩
      · exact .inr ⟨p, List.mem_cons_of_mem _ hp, hs⟩

/-- Every record produced for a single date is compatible with its employee's
eligibility mode and dated with that date. -/
theorem mem_processDate {employees : List EmployeeRow} {st : TrackState}
    {date : Nat} {r : AssignmentRec} (h : r ∈ (processDate employees st date).1) :
    r.date = date ∧ EligibleFor employees r := by
  simp only [processDate] at h
  rcases mem_foldl_saveOne date _ _ _ r h with h2 | ⟨p, hp, hid, hname, hty, hdate⟩
  · exact absurd h2 (List.not_mem_nil r)
  refine ⟨hdate, ?_⟩
  rcases List.mem_append.1 hp with hday | hnight
  · rcases mem_assign_shifts hday with ⟨emp, hemp, pid, pname, pty⟩
    rcases List.mem_filter.1 hemp with ⟨hmem, havail⟩
    refine ⟨emp, hmem, (pid ▸ hid).symm, (pname ▸ hname).symm, ?_, ?_⟩
    · intro _
      exact (is_available_shift_type havail).1 rfl
    · intro hcon
      rw [hty, pty] at hcon
      exact absurd hcon (by decide)
  · rcases mem_assign_shifts hnight with ⟨emp, hemp, pid, pname, pty⟩
    rcases List.mem_filter.1 hemp with ⟨hmem, havail⟩
    refine ⟨emp, hmem, (pid ▸ hid).symm, (pname ▸ hname).symm, ?_, ?_⟩
    · intro hcon
      rw [hty, pty] at hcon
      exact absurd hcon (by decide)
    · intro _
      exact (is_available_shift_type havail).2 rfl

/-- Unfolding lemma for the date fold of `generate_schedule`. -/
theorem mem_generate_fold (employees : List EmployeeRow) (dates : List Nat) :
    ∀ (out : List AssignmentRec) (st : TrackState) (r : AssignmentRec),
      r ∈ (dates.foldl
        (fun (acc : List AssignmentRec × TrackState) date =>
          let (recs, st') := processDate employees acc.2 date
          (acc.1 ++ recs, st')) (out, st)).1 →
      r ∈ out ∨ (r.date ∈ dates ∧ EligibleFor employees r) := by
  induction dates with
  | nil => exact fun out st r h => .inl h
  | cons d dates ih =>
      intro out st r h
      rw [List.foldl_cons] at h
      rcases ih _ _ r h with h2 | ⟨hd, helig⟩
      · rcases List.mem_append.1 h2 with h3 | h3
        · exact .inl h3
        · rcases mem_processDate h3 with ⟨hdate, helig⟩
          exact .inr ⟨hdate ▸ List.mem_cons_self _ _, helig⟩
      · exact .inr ⟨List.mem_cons_of_mem _ hd, helig⟩

/-- C3: every assignment in the output of `generate_schedule` is compatible
with the assigned employee's eligibility mode — an employee restricted to
nights (`shift_type = 'NIGHT'`) never receives a Day slot and an employee
restricted to days (`shift_type = 'DAY'`) never receives a Night slot. -/
theorem c3_period_matches_eligibility (employees : List EmployeeRow)
    (start weeks : Nat) (r : AssignmentRec)
    (hr : r ∈ generate_schedule employees start weeks) :
    EligibleFor employees r := by
  unfold generate_schedule at hr
  rcases mem_generate_fold employees _ _ _ r hr with h | ⟨_, h⟩
  · exact absurd h (List.not_mem_nil r)
  · exact h

/-- Witness for C3 at a concrete run: the first D1 assignment of the
`rosterC1` run names Alice, whose mode is `BOTH`. -/
theorem c3_period_matches_eligibility_witness :
    EligibleFor rosterC1 ⟨1, "Alice", 0, "Day", "D1", 420, 1140, 720, false⟩ :=
  c3_period_matches_eligibility rosterC1 0 1 _ (by decide)

/-! Regeneration (claim C8): clearing the requested range and re-running the
engine is idempotent and depends only on the roster snapshot, not on
previously published assignments. -/

/-- Membership in the visited-date list keeps dates within the first week of
the range (and forces a positive number of weeks). -/
theorem mem_datesVisited {start weeks d : Nat} (h : d ∈ datesVisited start weeks) :
    start ≤ d ∧ d < start + 7 ∧ 1 ≤ weeks := by
  rcases List.mem_flatMap.1 h with ⟨w, hw, hd⟩
  rcases List.mem_map.1 hd with ⟨day, hday, rfl⟩
  have h7 := List.mem_range.1 hday
  have hwk := List.mem_range.1 hw
  omega

/-- Every emitted assignment is dated inside the requested range. -/
theorem generate_schedule_date_mem {employees : List EmployeeRow}
    {start weeks : Nat} {r : AssignmentRec}
    (hr : r ∈ generate_schedule employees start weeks) :
    start ≤ r.date ∧ r.date < start + weeks * 7 := by
  unfold generate_schedule at hr
  have aux : ∀ (dates : List Nat) (out : List AssignmentRec) (st : TrackState),
      r ∈ (dates.foldl
        (fun (acc : List AssignmentRec × TrackState) date =>
          let (recs, st') := processDate employees acc.2 date
          (acc.1 ++ recs, st')) (out, st)).1 →
      r ∈ out ∨ r.date ∈ dates := by
    intro dates
    induction dates with
    | nil => exact fun out st h => .inl h
    | cons d dates ih =>
        intro out st h
        rw [List.foldl_cons] at h
        rcases ih _ _ h with h2 | hd
        · rcases List.mem_append.1 h2 with h3 | h3
          · exact .inl h3
          · exact .inr ((mem_processDate h3).1 ▸ List.mem_cons_self _ _)
        · exact .inr (List.mem_cons_of_mem _ hd)
  rcases aux _ [] initState hr with h | h
  · exact absurd h (List.not_mem_nil r)
  · have := mem_datesVisited h
    omega

/-- The engine's output survives no out-of-range filter: every record is in
range. -/
theorem generate_schedule_filter_out_eq_nil (employees : List EmployeeRow)
    (start weeks : Nat) :
    (generate_schedule employees start weeks).filter
      (fun a => !(inRange start weeks a.date)) = [] := by
  rw [List.filter_eq_nil_iff]
  intro a ha
  have := generate_schedule_date_mem ha
  simp only [inRange, Bool.not_eq_true', Bool.and_eq_false_iff, decide_eq_false_iff_not]
  omega

/-- C8: regeneration of a fixed date range is deterministic and idempotent —
its result depends only on the roster snapshot and the out-of-range part of
the store, and regenerating twice yields exactly the same assignment set as
regenerating once. -/
theorem c8_regeneration_deterministic_idempotent (employees : List EmployeeRow)
    (start weeks : Nat) (s t : List AssignmentRec)
    (h : s.filter (fun a => !(inRange start weeks a.date)) =
         t.filter (fun a => !(inRange start weeks a.date))) :
    regenerate employees start weeks s = regenerate employees start weeks t ∧
    regenerate employees start weeks (regenerate employees start weeks s) =
      regenerate employees start weeks s := by
  constructor
  · unfold regenerate
    rw [h]
  · unfold regenerate
    rw [List.filter_append, List.filter_filter,
        generate_schedule_filter_out_eq_nil, List.append_nil]
    congr 1
    apply List.filter_congr
    intro a _
    simp

/-- Witness for C8 at a concrete store: a stored out-of-range assignment is
preserved and the two properties hold for the `rosterC1` engine. -/
theorem c8_regeneration_witness :
    regenerate rosterC1 0 1 [] = regenerate rosterC1 0 1 [] ∧
    regenerate rosterC1 0 1 (regenerate rosterC1 0 1 []) = regenerate rosterC1 0 1 [] :=
  c8_regeneration_deterministic_idempotent rosterC1 0 1 [] [] rfl

end SchedEngine

namespace AppFixed

/-- With an empty pool the fair-distribution loop assigns nothing and raises
nothing (the body is skipped for every index). -/
theorem fairLoop_zero (binding : String → Option (List EmployeeF))
    (employees : List EmployeeF) (db : List ScheduleRow) (date : Nat)
    (stype : String) (shifts : List SchedEngine.ShiftTemplate) :
    ∀ i, fairLoop binding employees db date stype 0 shifts i = .ok [] := by
  induction shifts with
  | nil => intro i; rfl
  | cons sh rest ih =>
      intro i
      rw [fairLoop, if_neg (Nat.not_lt_zero i)]
      exact ih (i + 1)

/-- When neither leaked name resolves and the pool is non-empty, the first
loop iteration raises the `NameError`. -/
theorem fairLoop_name_error (binding : String → Option (List EmployeeF))
    (h1 : binding "available_day_employees" = none)
    (h2 : binding "available_night_employees" = none)
    (employees : List EmployeeF) (db : List ScheduleRow) (date : Nat)
    (stype : String) (availLen : Nat) (hA : 0 < availLen)
    (sh : SchedEngine.ShiftTemplate) (rest : List SchedEngine.ShiftTemplate) :
    fairLoop binding employees db date stype availLen (sh :: rest) 0 =
      .error (.nameError (leakedName stype)) := by
  have hb : binding (leakedName stype) = none := by
    unfold leakedName
    by_cases h : stype == "DAY"
    · rw [if_pos h]; exact h1
    · rw [if_neg h]; exact h2
  rw [fairLoop, if_pos hA, hb]

/-- `_assign_shifts_with_fair_distribution` raises the `NameError` whenever
there is at least one shift template and at least one pool member. -/
theorem assign_fair_name_error (binding : String → Option (List EmployeeF))
    (h1 : binding "available_day_employees" = none)
    (h2 : binding "available_night_employees" = none)
    (employees : List EmployeeF) (db : List ScheduleRow)
    (shifts : List SchedEngine.ShiftTemplate) (available : List EmployeeF)
    (date : Nat) (stype : String) (hsh : shifts ≠ []) (hav : available ≠ []) :
    assign_shifts_with_fair_distribution binding employees db shifts available date stype =
      .error (.nameError (leakedName stype)) := by
  unfold assign_shifts_with_fair_distribution
  obtain ⟨sh, rest, rfl⟩ := List.exists_cons_of_ne_nil hsh
  exact fairLoop_name_error binding h1 h2 employees db date stype _
    (List.length_pos.2 hav) sh rest

/-- A successful fair-distribution call had an empty pool and assigned
nothing. -/
theorem assign_fair_ok (binding : String → Option (List EmployeeF))
    (h1 : binding "available_day_employees" = none)
    (h2 : binding "available_night_employees" = none)
    (employees : List EmployeeF) (db : List ScheduleRow)
    (shifts : List SchedEngine.ShiftTemplate) (available : List EmployeeF)
    (date : Nat) (stype : String) (out : List AssignDictF) (hsh : shifts ≠ [])
    (hok : assign_shifts_with_fair_distribution binding employees db shifts available date stype = .ok out) :
    out = [] ∧ available = [] := by
  cases havail : available with
  | nil =>
      refine ⟨?_, rfl⟩
      subst havail
      unfold assign_shifts_with_fair_distribution at hok
      rw [List.length_nil, fairLoop_zero] at hok
      exact (Except.ok.inj hok).symm
  | cons e es =>
      exfalso
      subst havail
      rw [assign_fair_name_error binding h1 h2 employees db shifts _ date stype hsh
        (List.cons_ne_nil e es)] at hok
      exact Except.noConfusion hok

/-- A successful per-date step of the app_fixed engine emits nothing. -/
theorem processDateF_ok (binding : String → Option (List EmployeeF))
    (h1 : binding "available_day_employees" = none)
    (h2 : binding "available_night_employees" = none)
    (employees : List EmployeeF) (timeOffs : List TimeOffReq)
    (db : List ScheduleRow) (start days d : Nat) (out : List AssignDictF)
    (hok : processDateF binding employees timeOffs db start days d = .ok out) :
    out = [] := by
  have hdayne : (if weekday d ≥ 5 then day_shifts_weekend else day_shifts_weekday) ≠ [] := by
    split <;> decide
  simp only [processDateF] at hok
  cases hday : assign_shifts_with_fair_distribution binding employees db
      (if weekday d ≥ 5 then day_shifts_weekend else day_shifts_weekday)
      (availableDayEmployees employees timeOffs start days d) d "DAY" with
  | error e =>
      rw [hday] at hok
      simp only [Bind.bind, Except.bind] at hok
      exact Except.noConfusion hok
  | ok dayA =>
      rw [hday] at hok
      simp only [Bind.bind, Except.bind] at hok
      cases hnight : assign_shifts_with_fair_distribution binding employees db
          night_shifts (availableNightEmployees employees timeOffs start days d)
          d "NIGHT" with
      | error e =>
          rw [hnight] at hok
          simp only [Except.bind] at hok
          exact Except.noConfusion hok
      | ok nightA =>
          rw [hnight] at hok
          simp only [Except.bind, Pure.pure, Except.pure] at hok
          have hd0 := (assign_fair_ok binding h1 h2 employees db _ _ d "DAY" dayA
            hdayne hday).1
          have hn0 := (assign_fair_ok binding h1 h2 employees db _ _ d "NIGHT" nightA
            (by decide) hnight).1
          subst hd0; subst hn0
          simpa using (Except.ok.inj hok).symm

/-- A successful run of the app_fixed generation loop emits nothing. -/
theorem genDays_ok (binding : String → Option (List EmployeeF))
    (h1 : binding "available_day_employees" = none)
    (h2 : binding "available_night_employees" = none)
    (employees : List EmployeeF) (timeOffs : List TimeOffReq)
    (db : List ScheduleRow) (start days : Nat) :
    ∀ (offsets : List Nat) (out : List AssignDictF),
      genDays binding employees timeOffs db start days offsets = .ok out →
      out = [] := by
  intro offsets
  induction offsets with
  | nil =>
      intro out h
      exact (Except.ok.inj h).symm
  | cons o rest ih =>
      intro out h
      rw [genDays] at h
      cases hpd : processDateF binding employees timeOffs db start days (start + o) with
      | error e =>
          rw [hpd] at h
          simp only [Bind.bind, Except.bind] at h
          exact Except.noConfusion h
      | ok recs =>
          rw [hpd] at h
          simp only [Bind.bind, Except.bind] at h
          cases hre : genDays binding employees timeOffs db start days rest with
          | error e =>
              rw [hre] at h
              simp only [Except.bind] at h
              exact Except.noConfusion h
          | ok more =>
              rw [hre] at h
              simp only [Except.bind, Pure.pure, Except.pure] at h
              have h1r := processDateF_ok binding h1 h2 employees timeOffs db
                start days (start + o) recs hpd
              have h2r := ih more hre
              subst h1r; subst h2r
              simpa using (Except.ok.inj h).symm

/-- C10: in `app_fixed.py`, `_assign_shifts_with_fair_distribution` reads the
names `available_day_employees` / `available_night_employees`, which are
bound neither in the method's scope nor at module level (`binding` is the
name resolution for the two free names; both hypotheses hold for the actual
program, cf. `noScopeBinding`), so any call with a non-empty shift list and a
non-empty pool raises `NameError`, and a schedule-generation run of this
variant can only succeed by assigning nothing at all. -/
theorem c10_fair_distribution_unbound_names
    (binding : String → Option (List EmployeeF))
    (h1 : binding "available_day_employees" = none)
    (h2 : binding "available_night_employees" = none)
    (employees : List EmployeeF) (db : List ScheduleRow)
    (shifts : List SchedEngine.ShiftTemplate) (available : List EmployeeF)
    (date : Nat) (stype : String) (hsh : shifts ≠ []) (hav : available ≠ []) :
    assign_shifts_with_fair_distribution binding employees db shifts available date stype =
      .error (.nameError (leakedName stype)) ∧
    (∀ (timeOffs : List TimeOffReq) (start days : Nat) (out : List AssignDictF),
      generate_schedule_with_pto_reshuffling binding employees timeOffs db start days = .ok out →
      out = []) := by
  refine ⟨assign_fair_name_error binding h1 h2 employees db shifts available date stype hsh hav, ?_⟩
  intro timeOffs start days out hok
  exact genDays_ok binding h1 h2 employees timeOffs db start days (List.range days) out hok

/-- Witness for C10: with the real (empty) name resolution, one employee and
the weekday shift table, the call raises the day-pool `NameError`, and
generation can never succeed with a non-empty output. -/
theorem c10_fair_distribution_unbound_names_witness :
    assign_shifts_with_fair_distribution noScopeBinding c4emps [] day_shifts_weekday c4emps 0 "DAY" =
      .error (.nameError "available_day_employees") ∧
    (∀ (timeOffs : List TimeOffReq) (start days : Nat) (out : List AssignDictF),
      generate_schedule_with_pto_reshuffling noScopeBinding c4emps timeOffs [] start days = .ok out →
      out = []) :=
  c10_fair_distribution_unbound_names noScopeBinding rfl rfl c4emps []
    day_shifts_weekday c4emps 0 "DAY" (by decide) (by decide)

/-! Approved-absence handling (claim C4). -/

/-- Dropping requests that are not `APPROVED` does not change any PTO id
list: the query filters on the status anyway. -/
theorem ptoIds_filter_approved (timeOffs : List TimeOffReq)
    (start days d : Nat) (sc : String) :
    ptoIds (timeOffs.filter (fun t => t.status == "APPROVED")) start days d sc =
      ptoIds timeOffs start days d sc := by
  have hinner : (timeOffs.filter (fun t => t.status == "APPROVED")).filter
      (approvedInHorizon start days) = timeOffs.filter (approvedInHorizon start days) := by
    rw [List.filter_filter]
    apply List.filter_congr
    intro t _
    unfold approvedInHorizon
    cases h : t.status == "APPROVED" <;> simp [h]
  unfold ptoIds
  rw [hinner]

/-- The day pool only depends on the approved requests. -/
theorem availableDay_filter_approved (employees : List EmployeeF)
    (timeOffs : List TimeOffReq) (start days d : Nat) :
    availableDayEmployees employees (timeOffs.filter (fun t => t.status == "APPROVED"))
        start days d =
      availableDayEmployees employees timeOffs start days d := by
  simp only [availableDayEmployees, dayPto, ptoIds_filter_approved]

/-- The night pool only depends on the approved requests. -/
theorem availableNight_filter_approved (employees : List EmployeeF)
    (timeOffs : List TimeOffReq) (start days d : Nat) :
    availableNightEmployees employees (timeOffs.filter (fun t => t.status == "APPROVED"))
        start days d =
      availableNightEmployees employees timeOffs start days d := by
  simp only [availableNightEmployees, nightPto, ptoIds_filter_approved]

/-- A per-date step only depends on the approved requests. -/
theorem processDateF_filter_approved (binding : String → Option (List EmployeeF))
    (employees : List EmployeeF) (timeOffs : List TimeOffReq)
    (db : List ScheduleRow) (start days d : Nat) :
    processDateF binding employees (timeOffs.filter (fun t => t.status == "APPROVED"))
        db start days d =
      processDateF binding employees timeOffs db start days d := by
  simp only [processDateF, availableDay_filter_approved, availableNight_filter_approved]

/-- Members of the day pool are never on matching PTO, coverage fallback
included. -/
theorem mem_availableDay_no_pto {employees : List EmployeeF}
    {timeOffs : List TimeOffReq} {start days d : Nat} {e : EmployeeF}
    (he : e ∈ availableDayEmployees employees timeOffs start days d) :
    (dayPto timeOffs start days d).contains e.id = false := by
  simp only [availableDayEmployees] at he
  split at he
  · rcases List.mem_append.1 he with h | h
    · have h2 := (List.mem_filter.1 h).2
      rw [Bool.and_eq_true, Bool.not_eq_true'] at h2
      exact h2.1
    · have h2 := (List.mem_filter.1 (List.take_subset _ _ h)).2
      rw [Bool.and_eq_true, Bool.not_eq_true'] at h2
      exact h2.1
  · have h2 := (List.mem_filter.1 he).2
    rw [Bool.and_eq_true, Bool.not_eq_true'] at h2
    exact h2.1

/-- Members of the night pool are never on matching PTO, coverage fallback
included. -/
theorem mem_availableNight_no_pto {employees : List EmployeeF}
    {timeOffs : List TimeOffReq} {start days d : Nat} {e : EmployeeF}
    (he : e ∈ availableNightEmployees employees timeOffs start days d) :
    (nightPto timeOffs start days d).contains e.id = false := by
  simp only [availableNightEmployees] at he
  split at he
  · rcases List.mem_append.1 he with h | h
    · have h2 := (List.mem_filter.1 h).2
      rw [Bool.and_eq_true, Bool.not_eq_true'] at h2
      exact h2.1
    · have h2 := (List.mem_filter.1 (List.take_subset _ _ h)).2
      rw [Bool.and_eq_true, Bool.not_eq_true'] at h2
      exact h2.1
  · have h2 := (List.mem_filter.1 he).2
    rw [Bool.and_eq_true, Bool.not_eq_true'] at h2
    exact h2.1

/-- An approved request covering an in-horizon date puts its employee id in
the corresponding PTO id list. -/
theorem mem_ptoIds_of_covering {timeOffs : List TimeOffReq}
    {start days d : Nat} {t : TimeOffReq} (ht : t ∈ timeOffs)
    (hstatus : t.status = "APPROVED") (hd1 : start ≤ d) (hd2 : d < start + days)
    (hsd : t.start_date ≤ d) (hde : d ≤ t.end_date) :
    t.employee_id ∈ ptoIds timeOffs start days d t.shift_type := by
  unfold ptoIds
  apply List.mem_map.2
  refine ⟨t, ?_, rfl⟩
  apply List.mem_filter.2
  refine ⟨List.mem_filter.2 ⟨ht, ?_⟩, ?_⟩
  · unfold approvedInHorizon
    simp only [hstatus, Bool.and_eq_true, beq_self_eq_true, true_and,
      decide_eq_true_eq]
    omega
  · simp only [Bool.and_eq_true, beq_self_eq_true, true_and, decide_eq_true_eq]
    omega

/-- C4: approved absences are respected and non-approved ones are inert in
the app_fixed engine.  (1) No member of a date's day pool has an approved
`DAY`/`BOTH` absence covering the date; (2) likewise for the night pool with
`NIGHT`/`BOTH`; (3) no assignment of a successful generation run matches an
approved absence; (4) deleting every request that is not `APPROVED` leaves
the whole run unchanged, so `PENDING`/`DENIED` records have no effect. -/
theorem c4_approved_absences_respected (employees : List EmployeeF)
    (timeOffs : List TimeOffReq) (db : List ScheduleRow) (start days d : Nat)
    (hd1 : start ≤ d) (hd2 : d < start + days) :
    (∀ e ∈ availableDayEmployees employees timeOffs start days d,
      ∀ t ∈ timeOffs, t.status = "APPROVED" → t.employee_id = e.id →
        t.start_date ≤ d → d ≤ t.end_date →
        (t.shift_type = "DAY" ∨ t.shift_type = "BOTH") → False) ∧
    (∀ e ∈ availableNightEmployees employees timeOffs start days d,
      ∀ t ∈ timeOffs, t.status = "APPROVED" → t.employee_id = e.id →
        t.start_date ≤ d → d ≤ t.end_date →
        (t.shift_type = "NIGHT" ∨ t.shift_type = "BOTH") → False) ∧
    (∀ (binding : String → Option (List EmployeeF)) (out : List AssignDictF),
      binding "available_day_employees" = none →
      binding "available_night_employees" = none →
      generate_schedule_with_pto_reshuffling binding employees timeOffs db start days = .ok out →
      ∀ a ∈ out, ∀ t ∈ timeOffs, t.status = "APPROVED" →
        t.employee_id = a.employee_id → t.start_date ≤ a.schedule_date →
        a.schedule_date ≤ t.end_date →
        (t.shift_type = "BOTH" ∨ t.shift_type = a.shift_type) → False) ∧
    (∀ binding : String → Option (List EmployeeF),
      generate_schedule_with_pto_reshuffling binding employees
          (timeOffs.filter (fun t => t.status == "APPROVED")) db start days =
        generate_schedule_with_pto_reshuffling binding employees timeOffs db start days) := by
  refine ⟨?_, ?_, ?_, ?_⟩
  · intro e he t ht hstatus hemp hsd hde hscope
    have hcont := mem_availableDay_no_pto he
    have hmem : e.id ∈ dayPto timeOffs start days d := by
      unfold dayPto
      rcases hscope with h | h
      · exact List.mem_append_left _
          (hemp ▸ h ▸ mem_ptoIds_of_covering ht hstatus hd1 hd2 hsd hde)
      · exact List.mem_append_right _
          (hemp ▸ h ▸ mem_ptoIds_of_covering ht hstatus hd1 hd2 hsd hde)
    simp [List.elem_iff, hmem] at hcont
  · intro e he t ht hstatus hemp hsd hde hscope
    have hcont := mem_availableNight_no_pto he
    have hmem : e.id ∈ nightPto timeOffs start days d := by
      unfold nightPto
      rcases hscope with h | h
      · exact List.mem_append_left _
          (hemp ▸ h ▸ mem_ptoIds_of_covering ht hstatus hd1 hd2 hsd hde)
      · exact List.mem_append_right _
          (hemp ▸ h ▸ mem_ptoIds_of_covering ht hstatus hd1 hd2 hsd hde)
    simp [List.elem_iff, hmem] at hcont
  · intro binding out hb1 hb2 hok a ha
    rw [genDays_ok binding hb1 hb2 employees timeOffs db start days
      (List.range days) out hok] at ha
    exact absurd ha (List.not_mem_nil a)
  · intro binding
    unfold generate_schedule_with_pto_reshuffling
    generalize List.range days = offsets
    induction offsets with
    | nil => rfl
    | cons o rest ih =>
        rw [genDays, genDays, processDateF_filter_approved, ih]

/-- Witness for C4 at a concrete input: one employee, one approved `BOTH`
absence for the whole first week, day 3 of a 7-day horizon. -/
theorem c4_approved_absences_respected_witness :
    (∀ e ∈ availableDayEmployees c4emps c4tos 0 7 3,
      ∀ t ∈ c4tos, t.status = "APPROVED" → t.employee_id = e.id →
        t.start_date ≤ 3 → 3 ≤ t.end_date →
        (t.shift_type = "DAY" ∨ t.shift_type = "BOTH") → False) ∧
    (∀ e ∈ availableNightEmployees c4emps c4tos 0 7 3,
      ∀ t ∈ c4tos, t.status = "APPROVED" → t.employee_id = e.id →
        t.start_date ≤ 3 → 3 ≤ t.end_date →
        (t.shift_type = "NIGHT" ∨ t.shift_type = "BOTH") → False) ∧
    (∀ (binding : String → Option (List EmployeeF)) (out : List AssignDictF),
      binding "available_day_employees" = none →
      binding "available_night_employees" = none →
      generate_schedule_with_pto_reshuffling binding c4emps c4tos [] 0 7 = .ok out →
      ∀ a ∈ out, ∀ t ∈ c4tos, t.status = "APPROVED" →
        t.employee_id = a.employee_id → t.start_date ≤ a.schedule_date →
        a.schedule_date ≤ t.end_date →
        (t.shift_type = "BOTH" ∨ t.shift_type = a.shift_type) → False) ∧
    (∀ binding : String → Option (List EmployeeF),
      generate_schedule_with_pto_reshuffling binding c4emps
          (c4tos.filter (fun t => t.status == "APPROVED")) [] 0 7 =
        generate_schedule_with_pto_reshuffling binding c4emps c4tos [] 0 7) :=
  c4_approved_absences_respected c4emps c4tos [] 0 7 3 (by decide) (by decide)

/-- C6 (counterexample to "record it as unfilled"): a nights-only employee
with an approved whole-week `BOTH` absence leaves every pool of day 0 empty;
the app_fixed run then succeeds with an empty output — the six weekday day
slots and three night slots are silently dropped, and in particular nothing
records slot `D1` of day 0 as unfilled. -/
theorem c6_counterexample_empty_slots_dropped :
    availableDayEmployees c6emps c6tos 0 1 0 = [] ∧
    availableNightEmployees c6emps c6tos 0 1 0 = [] ∧
    day_shifts_weekday.length = 6 ∧ night_shifts.length = 3 ∧
    generate_schedule_with_pto_reshuffling noScopeBinding c6emps c6tos [] 0 1 = .ok [] ∧
    ¬ slotRecorded [] 0 "D1" := by
  decide

/-- C9 (counterexample): `approve_trade` never re-checks ownership or dates.
In `tradeStateC9` the pending trade claims requesting employee 99, but its
original schedule belongs to employee 10; the claim requires a rejection with
both records unchanged, yet approval succeeds and swaps the two employee
fields. -/
theorem c9_counterexample_ownership_not_checked :
    (findSchedule tradeStateC9.schedules 1).map ScheduleRow.employee_id = some 10 ∧
    tradeStateC9.trades.map TradeRow.requesting_employee_id = [99] ∧
    approve_trade tradeStateC9 1 = .ok tradeStateC9Swapped ∧
    tradeStateC9Swapped.schedules ≠ tradeStateC9.schedules := by
  decide

/-- C9 (amended): the approval-time swap checks only that the trade exists
and is `PENDING`.  A non-pending trade is rejected with a reason and no
record changes; when both referenced schedules exist, approval succeeds and
atomically exchanges exactly the `employee_id` fields of the two referenced
rows (all other rows and fields unchanged), regardless of current ownership
or dates.  Ownership and past-date validation happen only when the trade is
created (`POST /api/trades`): there, a mismatch between a schedule's owner
and the claimed employee, or a past date, is rejected with a specific reason
and no trade row is added. -/
theorem c9_swap_requires_only_pending (st : TradeState) (tid : Nat)
    (trade : TradeRow) (hfind : st.trades.find? (fun t => t.id == tid) = some trade) :
    (trade.status ≠ "PENDING" →
      approve_trade st tid = .error (.badRequest "Trade is not pending")) ∧
    (∀ orig tr : ScheduleRow, trade.status = "PENDING" →
      findSchedule st.schedules trade.original_schedule_id = some orig →
      findSchedule st.schedules trade.trade_schedule_id = some tr →
      approve_trade st tid = .ok
        { schedules := st.schedules.map (fun s =>
            if s.id == trade.original_schedule_id then
              { s with employee_id := tr.employee_id }
            else if s.id == trade.trade_schedule_id then
              { s with employee_id := orig.employee_id }
            else s),
          trades := st.trades.map (fun t =>
            if t.id == tid then { t with status := "APPROVED" } else t) }) ∧
    (∀ (now requesting target origId tradeId newId : Nat) (o t2 : ScheduleRow),
      findSchedule st.schedules origId = some o →
      findSchedule st.schedules tradeId = some t2 → o.employee_id ≠ requesting →
      api_trades_post st now requesting target origId tradeId newId =
        .error (.badRequest "Original schedule does not belong to requesting employee")) ∧
    (∀ (now requesting target origId tradeId newId : Nat) (o t2 : ScheduleRow),
      findSchedule st.schedules origId = some o →
      findSchedule st.schedules tradeId = some t2 →
      o.employee_id = requesting → t2.employee_id = target →
      o.schedule_date < now →
      api_trades_post st now requesting target origId tradeId newId =
        .error (.badRequest "Cannot trade shifts that have already occurred")) := by
  refine ⟨?_, ?_, ?_, ?_⟩
  · intro hstatus
    have hs : (trade.status != "PENDING") = true := by simpa using hstatus
    unfold approve_trade
    rw [hfind]
    simp only [hs, if_true]
  · intro orig tr hstatus horig htr
    have hs : (trade.status != "PENDING") = false := by simp [hstatus]
    unfold approve_trade
    rw [hfind]
    simp only [hs, Bool.false_eq_true, if_false, horig, htr]
  · intro now requesting target origId tradeId newId o t2 ho ht2 hne
    have hs : (o.employee_id != requesting) = true := by simpa using hne
    unfold api_trades_post
    rw [ho, ht2]
    simp only [hs, if_true]
  · intro now requesting target origId tradeId newId o t2 ho ht2 hown htgt hpast
    have hs1 : (o.employee_id != requesting) = false := by simp [hown]
    have hs2 : (t2.employee_id != target) = false := by simp [htgt]
    unfold api_trades_post
    rw [ho, ht2]
    simp only [hs1, hs2, Bool.false_eq_true, if_false, if_pos hpast]

/-- Witness for C9 (amended) at `tradeStateOk`: the well-owned pending trade
is approved with exactly the two employee fields exchanged, a non-owned
creation attempt is rejected, and a past-dated creation attempt is
rejected. -/
theorem c9_swap_requires_only_pending_witness :
    approve_trade tradeStateOk 1 = .ok
      { schedules := tradeStateOk.schedules.map (fun s =>
          if s.id == 1 then { s with employee_id := 20 }
          else if s.id == 2 then { s with employee_id := 10 }
          else s),
        trades := tradeStateOk.trades.map (fun t =>
          if t.id == 1 then { t with status := "APPROVED" } else t) } ∧
    api_trades_post tradeStateOk 0 99 20 1 2 7 =
      .error (.badRequest "Original schedule does not belong to requesting employee") ∧
    api_trades_post tradeStateOk 9 10 20 1 2 7 =
      .error (.badRequest "Cannot trade shifts that have already occurred") := by
  have h := c9_swap_requires_only_pending tradeStateOk 1
    ⟨1, 10, 20, 1, 2, "PENDING"⟩ (by decide)
  refine ⟨?_, ?_, ?_⟩
  · exact h.2.1 ⟨1, 10, 5, 420, 1140, "DAY", "D1"⟩ ⟨2, 20, 6, 420, 1140, "DAY", "D1"⟩
      rfl (by decide) (by decide)
  · exact h.2.2.1 0 99 20 1 2 7 ⟨1, 10, 5, 420, 1140, "DAY", "D1"⟩
      ⟨2, 20, 6, 420, 1140, "DAY", "D1"⟩ (by decide) (by decide) (by decide)
  · exact h.2.2.2 9 10 20 1 2 7 ⟨1, 10, 5, 420, 1140, "DAY", "D1"⟩
      ⟨2, 20, 6, 420, 1140, "DAY", "D1"⟩ (by decide) (by decide) (by decide) (by decide)
      (by decide)

end AppFixed

namespace Sample

/-- The candidate order of `choose_person` coincides with the lexicographic
order of the code's ranking keys. -/
theorem candLe_mkCand (w : Nat → String → Nat) (wk : Nat) (p q : String) :
    candLe (mkCand w wk p) (mkCand w wk q) ↔
      keyLe3 (codeKey w wk p) (codeKey w wk q) := by
  unfold candLe mkCand codeKey keyLe3
  by_cases hp : w wk p < BASE_TARGET p <;> by_cases hq : w wk q < BASE_TARGET q <;>
    simp [hp, hq]

/-- `keyLe3` is reflexive. -/
theorem keyLe3_refl (a : Nat × Nat × Nat) : keyLe3 a a := by
  unfold keyLe3
  omega

/-- `choose_person` returns exactly the eligible non-lead people. -/
theorem mem_choose_person (w : Nat → String → Nat)
    (lastE : String → Option Int) (worked : String → List Nat)
    (date : Nat) (period : String) (s : Nat) (p : String) :
    p ∈ choose_person w lastE worked date period s ↔
      p ∈ eligiblePeople date period s lastE worked := by
  simp only [choose_person]
  constructor
  · intro hp
    rcases List.mem_map.1 hp with ⟨c, hc, rfl⟩
    rcases List.mem_map.1 ((List.mem_insertionSort _).1 hc) with ⟨q, hq, rfl⟩
    simpa [mkCand] using hq
  · intro hp
    apply List.mem_map.2
    refine ⟨mkCand w (week_start date) p, ?_, rfl⟩
    exact (List.mem_insertionSort _).2 (List.mem_map.2 ⟨p, hp, rfl⟩)

/-- `choose_person`'s output is sorted ascending by the code's ranking key. -/
theorem choose_person_pairwise (w : Nat → String → Nat)
    (lastE : String → Option Int) (worked : String → List Nat)
    (date : Nat) (period : String) (s : Nat) :
    (choose_person w lastE worked date period s).Pairwise
      (fun a b => keyLe3 (codeKey w (week_start date) a)
        (codeKey w (week_start date) b)) := by
  simp only [choose_person]
  rw [List.pairwise_map]
  have hs := List.sorted_insertionSort candLe
    ((eligiblePeople date period s lastE worked).map (mkCand w (week_start date)))
  apply hs.imp_of_mem
  intro a b ha hb hab
  have ha2 := (List.mem_insertionSort _).1 ha
  have hb2 := (List.mem_insertionSort _).1 hb
  rcases List.mem_map.1 ha2 with ⟨pa, _, rfl⟩
  rcases List.mem_map.1 hb2 with ⟨pb, _, rfl⟩
  simpa [mkCand] using (candLe_mkCand w (week_start date) pa pb).1 hab

/-- Ties in the code's ranking key are broken by roster order: a pair of
tied people keeps its relative order from the eligible list (Python's sort is
stable). -/
theorem choose_person_stable (w : Nat → String → Nat)
    (lastE : String → Option Int) (worked : String → List Nat)
    (date : Nat) (period : String) (s : Nat) (p q : String)
    (hsub : List.Sublist [p, q] (eligiblePeople date period s lastE worked))
    (hkey : codeKey w (week_start date) p = codeKey w (week_start date) q) :
    List.Sublist [p, q] (choose_person w lastE worked date period s) := by
  simp only [choose_person]
  have h1 : List.Sublist [mkCand w (week_start date) p, mkCand w (week_start date) q]
      ((eligiblePeople date period s lastE worked).map (mkCand w (week_start date))) := by
    simpa using hsub.map (mkCand w (week_start date))
  have hle : candLe (mkCand w (week_start date) p) (mkCand w (week_start date) q) :=
    (candLe_mkCand w (week_start date) p q).2 (hkey ▸ keyLe3_refl _)
  have h2 := List.pair_sublist_insertionSort hle h1
  simpa using h2.map Cand.person

/-- The head of `choose_person` has minimal hours among candidates tied on
the earlier keys: an otherwise-tied candidate with strictly more hours so far
this week is never the pick. -/
theorem choose_person_head_min (w : Nat → String → Nat)
    (lastE : String → Option Int) (worked : String → List Nat)
    (date : Nat) (period : String) (s : Nat) (q : String)
    (hex : ∃ p ∈ choose_person w lastE worked date period s,
      (codeKey w (week_start date) p).1 = (codeKey w (week_start date) q).1 ∧
      (codeKey w (week_start date) p).2.1 = (codeKey w (week_start date) q).2.1 ∧
      (codeKey w (week_start date) p).2.2 < (codeKey w (week_start date) q).2.2) :
    (choose_person w lastE worked date period s).head? ≠ some q := by
  intro hhead
  have hpw := choose_person_pairwise w lastE worked date period s
  rcases hpicks : choose_person w lastE worked date period s with _ | ⟨a, rest⟩
  · rw [hpicks] at hhead
    exact Option.noConfusion hhead
  rw [hpicks] at hhead
  have ha : a = q := Option.some.inj hhead
  subst ha
  rw [hpicks] at hpw
  rcases hex with ⟨p, hp, h1, h2, h3⟩
  rw [hpicks] at hp
  rcases List.mem_cons.1 hp with rfl | hp2
  · omega
  · have := (List.pairwise_cons.1 hpw).1 p hp2
    unfold keyLe3 at this
    omega

/-- C5 (corrected): the ranker's tie-break is the roster order, not the
employee name.  At the all-zero opening state every eligible candidate of the
first Sunday's D1 slot ties on every key and on the claimed key; the code
picks Vicki Theler (first in `PEOPLE` after the skipped lead and the
nights-only operator), while ordering by the claimed tuple — name as final
key — would pick Chloe Gray. -/
theorem c5_counterexample_tie_break_is_roster_order :
    (choose_person zeroWeekly noLastEnd noWorked 10 "Day" 420).head? =
      some "Vicki Theler" ∧
    (specClaimRank zeroWeekly (week_start 10) 720
      (eligiblePeople 10 "Day" 420 noLastEnd noWorked)).head? =
      some "Chloe Gray" ∧
    ("Vicki Theler" : String) ≠ "Chloe Gray" := by
  decide

/-- C5 (amended): `choose_person` returns exactly the eligible non-lead
candidates, ordered ascending by the tuple (0 if strictly under weekly
target else 1, `max(0, ledgerHours − weeklyTarget)`, ledger hours this week),
with ties broken by roster order (stable sort); among candidates tied on the
first two keys, one with strictly fewer hours so far this week is always
preferred to one with strictly more. -/
theorem c5_ranker_orders_by_code_key (w : Nat → String → Nat)
    (lastE : String → Option Int) (worked : String → List Nat)
    (date : Nat) (period : String) (s : Nat) :
    (∀ p, p ∈ choose_person w lastE worked date period s ↔
      p ∈ eligiblePeople date period s lastE worked) ∧
    (choose_person w lastE worked date period s).Pairwise
      (fun a b => keyLe3 (codeKey w (week_start date) a)
        (codeKey w (week_start date) b)) ∧
    (∀ p q, List.Sublist [p, q] (eligiblePeople date period s lastE worked) →
      codeKey w (week_start date) p = codeKey w (week_start date) q →
      List.Sublist [p, q] (choose_person w lastE worked date period s)) ∧
    (∀ q, (∃ p ∈ choose_person w lastE worked date period s,
      (codeKey w (week_start date) p).1 = (codeKey w (week_start date) q).1 ∧
      (codeKey w (week_start date) p).2.1 = (codeKey w (week_start date) q).2.1 ∧
      (codeKey w (week_start date) p).2.2 < (codeKey w (week_start date) q).2.2) →
      (choose_person w lastE worked date period s).head? ≠ some q) :=
  ⟨fun p => mem_choose_person w lastE worked date period s p,
   choose_person_pairwise w lastE worked date period s,
   fun p q hsub hkey => choose_person_stable w lastE worked date period s p q hsub hkey,
   fun q hex => choose_person_head_min w lastE worked date period s q hex⟩

/-- Witness for the amended C5 at concrete states: the opening-Sunday D1 pick
list is sorted, the tied pair Lisa/Shala keeps roster order, and with only
Tash holding hours, Tash is never the pick. -/
theorem c5_ranker_orders_by_code_key_witness :
    (choose_person zeroWeekly noLastEnd noWorked 10 "Day" 420).Pairwise
      (fun a b => keyLe3 (codeKey zeroWeekly (week_start 10) a)
        (codeKey zeroWeekly (week_start 10) b)) ∧
    List.Sublist ["Lisa Dixon", "Shala Johnson"]
      (choose_person zeroWeekly noLastEnd noWorked 10 "Day" 420) ∧
    (choose_person weeklyC5 noLastEnd noWorked 10 "Day" 420).head? ≠
      some "Tash Jaramillo" :=
  ⟨(c5_ranker_orders_by_code_key zeroWeekly noLastEnd noWorked 10 "Day" 420).2.1,
   (c5_ranker_orders_by_code_key zeroWeekly noLastEnd noWorked 10 "Day" 420).2.2.1
     "Lisa Dixon" "Shala Johnson" (by decide) (by decide),
   (c5_ranker_orders_by_code_key weeklyC5 noLastEnd noWorked 10 "Day" 420).2.2.2
     "Tash Jaramillo" ⟨"Lisa Dixon", by decide, by decide, by decide, by decide⟩⟩

/-- C6 (amended, sample_scehduler side): the per-slot fill step records
`"UNFILLED"` exactly when the eligible candidate set is empty — the slot is
always recorded, never dropped — and any person actually assigned satisfies
the hard `can_work` rules (rest, consecutive days, blackout weekdays,
day/night eligibility): the sample engine never weakens them to fill a
gap. -/
theorem c6_unfilled_recorded_hard_rules_kept (w : Nat → String → Nat)
    (lastE : String → Option Int) (worked : String → List Nat)
    (date : Nat) (period : String) (s : Nat) :
    (fill_general_slot w lastE worked date period s = "UNFILLED" ↔
      eligiblePeople date period s lastE worked = []) ∧
    (∀ p, fill_general_slot w lastE worked date period s = p → p ≠ "UNFILLED" →
      p ∈ PEOPLE ∧ p ≠ LEAD ∧ can_work p date period s lastE worked = true) := by
  constructor
  · constructor
    · intro hfill
      by_contra helig
      obtain ⟨x, hx⟩ := List.exists_mem_of_ne_nil _ helig
      have hxp := (mem_choose_person w lastE worked date period s x).2 hx
      rcases hpicks : choose_person w lastE worked date period s with _ | ⟨c, t⟩
      · rw [hpicks] at hxp
        exact absurd hxp (List.not_mem_nil x)
      · unfold fill_general_slot at hfill
        rw [hpicks] at hfill
        simp only [List.headD_cons] at hfill
        have hc : c ∈ choose_person w lastE worked date period s := by
          rw [hpicks]; exact List.mem_cons_self _ _
        have := (List.mem_filter.1
          ((mem_choose_person w lastE worked date period s c).1 hc)).1
        rw [hfill] at this
        exact absurd this (by decide)
    · intro helig
      have hpicks : choose_person w lastE worked date period s = [] := by
        rcases hpicks : choose_person w lastE worked date period s with _ | ⟨c, t⟩
        · rfl
        · have hc : c ∈ choose_person w lastE worked date period s := by
            rw [hpicks]; exact List.mem_cons_self _ _
          have := (mem_choose_person w lastE worked date period s c).1 hc
          rw [helig] at this
          exact absurd this (List.not_mem_nil c)
      unfold fill_general_slot
      rw [hpicks]
      rfl
  · intro p hfill hne
    rcases hpicks : choose_person w lastE worked date period s with _ | ⟨c, t⟩
    · exfalso
      apply hne
      unfold fill_general_slot at hfill
      rw [hpicks] at hfill
      exact hfill.symm
    · have hcp : c = p := by
        unfold fill_general_slot at hfill
        rw [hpicks] at hfill
        simpa using hfill
      subst hcp
      have hc : c ∈ choose_person w lastE worked date period s := by
        rw [hpicks]; exact List.mem_cons_self _ _
      have hmem := List.mem_filter.1
        ((mem_choose_person w lastE worked date period s c).1 hc)
      refine ⟨hmem.1, ?_, ?_⟩
      · have := (Bool.and_eq_true _ _ ▸ hmem.2).1
        simpa [bne_iff_ne] using this
      · exact (Bool.and_eq_true _ _ ▸ hmem.2).2

/-- Witness for the amended C6: at the opening Sunday the D1 slot is filled
(so not `"UNFILLED"`), with a person satisfying every hard rule. -/
theorem c6_unfilled_recorded_hard_rules_kept_witness :
    (fill_general_slot zeroWeekly noLastEnd noWorked 10 "Day" 420 = "UNFILLED" ↔
      eligiblePeople 10 "Day" 420 noLastEnd noWorked = []) ∧
    ("Vicki Theler" ∈ PEOPLE ∧ "Vicki Theler" ≠ LEAD ∧
      can_work "Vicki Theler" 10 "Day" 420 noLastEnd noWorked = true) :=
  ⟨(c6_unfilled_recorded_hard_rules_kept zeroWeekly noLastEnd noWorked 10 "Day" 420).1,
   (c6_unfilled_recorded_hard_rules_kept zeroWeekly noLastEnd noWorked 10 "Day" 420).2
     "Vicki Theler" (by decide) (by decide)⟩

end Sample
